import Mathlib

/-!
Shallow embedding of the Invar invariant-analysis core (crates/core) and
proofs about it.  The definitions mirror, item by item, the Rust sources:

* `crates/core/src/types.rs`      — `Ty` (the Rust `Type` enum), `TypeError`
* `crates/core/src/model.rs`      — `Expression`, `BinaryOp`, `LogicalOp`
* `crates/core/src/evaluator.rs`  — `Value`, `EvaluationError`,
  `ExecutionContext`, `Evaluator::evaluate`, `Evaluator::eval_binary_op`
* `crates/core/src/type_checker.rs` — `TypeChecker::infer_type` and helpers
* `crates/core/src/threat_model.rs` — `TamperDetector`, `DSLSandbox`,
  `SimulationIsolation`
* `crates/core/src/security_validator.rs` — `SecurityValidator::check_reentrancy`

Machine integers are modelled as `Nat` / `Int`; where Rust performs a
truncating cast the reduction modulo `2 ^ w` is written out explicitly.
-/

set_option maxHeartbeats 1000000

namespace Invar

/-- The Rust `Type` enum from `types.rs` (named `Ty` because `Type` is a
Lean keyword). -/
inductive Ty
  | Bool
  | U64
  | U128
  | I64
  | Address
deriving DecidableEq, Repr

/-- `Type::is_numeric` from `types.rs` (top-level name: the constructor
`Ty.Bool` would shadow the `Bool` type inside the `Ty` namespace). -/
def is_numeric : Ty → Bool
  | .U64 => true
  | .U128 => true
  | .I64 => true
  | _ => false

/-- The binary comparison operators from `model.rs`. -/
inductive BinOp
  | Eq
  | Neq
  | Lt
  | Gt
  | Lte
  | Gte
deriving DecidableEq, Repr

/-- The logical operators from `model.rs`. -/
inductive LogicalOp
  | And
  | Or
deriving DecidableEq, Repr

/-- The `Expression` IR sum type from `model.rs`.  The Rust `Int` payload is
`i128`; it is modelled as an unrestricted `Int`, with the `i128` range bound
stated as a hypothesis where it matters.  The constructor for the Rust
`Expression::BinaryOp` variant is named `Binary` (the operator enum already
uses the short name `BinOp`). -/
inductive Expression
  | Boolean (b : Bool)
  | Var (name : String)
  | LayerVar (layer : String) (var : String)
  | PhaseQualifiedVar (phase : String) (layer : String) (var : String)
  | PhaseConstraint (phase : String) (constraint : Expression)
  | CrossPhaseRelation (phase1 : String) (expr1 : Expression)
      (phase2 : String) (expr2 : Expression) (op : BinOp)
  | IntLit (val : Int)
  | Binary (left : Expression) (op : BinOp) (right : Expression)
  | Logical (left : Expression) (op : LogicalOp) (right : Expression)
  | Not (e : Expression)
  | FunctionCall (name : String) (args : List Expression)
  | Tuple (exprs : List Expression)
deriving Repr

/-- The runtime `Value` enum from `evaluator.rs`.  `u64`/`u128` payloads are
`Nat`, `i64` payloads are `Int`. -/
inductive Value
  | Bool (b : Bool)
  | U64 (n : Nat)
  | U128 (n : Nat)
  | I64 (n : Int)
  | Address (a : String)
deriving DecidableEq, Repr

/-- The `EvaluationError` enum from `evaluator.rs`. -/
inductive EvaluationError
  | Overflow
  | Underflow
  | TypeError
  | DivisionByZero
  | UndefinedVariable (name : String)
  | UndefinedFunction (name : String)
  | InvalidArgument (msg : String)
  | ConversionOverflow
  | Custom (msg : String)
deriving DecidableEq, Repr

deriving instance DecidableEq for Except

deriving instance Fintype for Ty

deriving instance Fintype for BinOp

deriving instance Fintype for LogicalOp

/-- `Value::get_type` from `evaluator.rs`. -/
def get_type : Value → Ty
  | .Bool _ => .Bool
  | .U64 _ => .U64
  | .U128 _ => .U128
  | .I64 _ => .I64
  | .Address _ => .Address

/-- `Value::to_bool` from `evaluator.rs`.  Every arm returns `Ok`. -/
def to_bool : Value → Except EvaluationError Bool
  | .Bool b => .ok b
  | .U64 n => .ok (n != 0)
  | .U128 n => .ok (n != 0)
  | .I64 n => .ok (n != 0)
  | .Address a => .ok (!a.isEmpty)

/-- The `ExecutionContext` from `evaluator.rs`: `state_vars` and `functions`
are `BTreeMap`s, modelled as association lists (looked up by key with
`List.lookup`, matching `BTreeMap::get`). -/
structure ExecutionContext where
  state_vars : List (String × Value)
  functions : List (String × (List Value → Except EvaluationError Value))

/-- `Evaluator::eval_binary_op` from `evaluator.rs`.  The `Eq`/`Neq` arms
use the derived `PartialEq` of `Value` (structural equality across all
variants); the four relational arms are defined only for matching integer
variants. -/
def eval_binary_op (left : Value) (op : BinOp) (right : Value) :
    Except EvaluationError Value :=
  match op with
  | .Eq => .ok (.Bool (decide (left = right)))
  | .Neq => .ok (.Bool (decide (left ≠ right)))
  | .Lt =>
    match left, right with
    | .U64 l, .U64 r => .ok (.Bool (decide (l < r)))
    | .I64 l, .I64 r => .ok (.Bool (decide (l < r)))
    | .U128 l, .U128 r => .ok (.Bool (decide (l < r)))
    | _, _ => .error .TypeError
  | .Gt =>
    match left, right with
    | .U64 l, .U64 r => .ok (.Bool (decide (l > r)))
    | .I64 l, .I64 r => .ok (.Bool (decide (l > r)))
    | .U128 l, .U128 r => .ok (.Bool (decide (l > r)))
    | _, _ => .error .TypeError
  | .Lte =>
    match left, right with
    | .U64 l, .U64 r => .ok (.Bool (decide (l ≤ r)))
    | .I64 l, .I64 r => .ok (.Bool (decide (l ≤ r)))
    | .U128 l, .U128 r => .ok (.Bool (decide (l ≤ r)))
    | _, _ => .error .TypeError
  | .Gte =>
    match left, right with
    | .U64 l, .U64 r => .ok (.Bool (decide (l ≥ r)))
    | .I64 l, .I64 r => .ok (.Bool (decide (l ≥ r)))
    | .U128 l, .U128 r => .ok (.Bool (decide (l ≥ r)))
    | _, _ => .error .TypeError

/-- Rust's truncating cast `v as i64` applied to an `i128` value: keep the
low 64 bits and reinterpret them in two's complement. -/
def i128_as_i64 (v : Int) : Int :=
  let m := v % (2 : Int) ^ 64
  if m < 2 ^ 63 then m else m - 2 ^ 64

mutual

/-- `Evaluator::evaluate` from `evaluator.rs`, arm by arm. -/
def evaluate (ctx : ExecutionContext) : Expression → Except EvaluationError Value
  | .Boolean b => .ok (.Bool b)
  | .IntLit val =>
    if val < 0 then .ok (.I64 (i128_as_i64 val))
    else if val ≤ (2 : Int) ^ 64 - 1 then .ok (.U64 val.toNat)
    else .ok (.U128 val.toNat)
  | .Var name =>
    match ctx.state_vars.lookup name with
    | some v => .ok v
    | none => .error (.UndefinedVariable name)
  | .LayerVar layer var =>
    let qualified_name := layer ++ "::" ++ var
    match ctx.state_vars.lookup qualified_name with
    | some v => .ok v
    | none =>
      match ctx.state_vars.lookup var with
      | some v => .ok v
      | none => .error (.UndefinedVariable qualified_name)
  | .PhaseQualifiedVar phase layer var =>
    let qualified_name := phase ++ "::" ++ layer ++ "::" ++ var
    match ctx.state_vars.lookup qualified_name with
    | some v => .ok v
    | none =>
      match ctx.state_vars.lookup (layer ++ "::" ++ var) with
      | some v => .ok v
      | none =>
        match ctx.state_vars.lookup var with
        | some v => .ok v
        | none => .error (.UndefinedVariable qualified_name)
  | .PhaseConstraint _ constraint => evaluate ctx constraint
  | .CrossPhaseRelation _ expr1 _ expr2 op => do
    let left_val ← evaluate ctx expr1
    let right_val ← evaluate ctx expr2
    eval_binary_op left_val op right_val
  | .Binary left op right => do
    let left_val ← evaluate ctx left
    let right_val ← evaluate ctx right
    eval_binary_op left_val op right_val
  | .Logical left op right => do
    let left_val ← to_bool (← evaluate ctx left)
    match op with
    | .And =>
      if !left_val then .ok (.Bool false)
      else do
        let right_val ← to_bool (← evaluate ctx right)
        .ok (.Bool right_val)
    | .Or =>
      if left_val then .ok (.Bool true)
      else do
        let right_val ← to_bool (← evaluate ctx right)
        .ok (.Bool right_val)
  | .Not e => do
    let val ← to_bool (← evaluate ctx e)
    .ok (.Bool (!val))
  | .FunctionCall name args =>
    match ctx.functions.lookup name with
    | none => .error (.UndefinedFunction name)
    | some func => do
      let arg_vals ← evaluate_args ctx args
      func arg_vals
  | .Tuple exprs =>
    match exprs with
    | [] => .ok (.Bool true)
    | e :: _ => evaluate ctx e

/-- Left-to-right evaluation of a call's arguments, stopping at the first
error (the `collect::<EvalResult<Vec<_>>>` in the `FunctionCall` arm). -/
def evaluate_args (ctx : ExecutionContext) :
    List Expression → Except EvaluationError (List Value)
  | [] => .ok []
  | e :: rest => do
    let v ← evaluate ctx e
    let vs ← evaluate_args ctx rest
    .ok (v :: vs)

end

/-- The `TypeError` enum from `types.rs` (`param_idx` is `usize`, modelled
as `Nat`). -/
inductive TypeError
  | UndefinedVariable (name : String)
  | UndefinedFunction (name : String)
  | BinaryOpTypeMismatch (left : Ty) (op : String) (right : Ty)
  | UnaryOpTypeMismatch (op : String) (operand : Ty)
  | FunctionArgMismatch (function : String) (param_idx : Nat)
      (expected : Ty) (actual : Ty)
  | LogicalOpRequiresBool (op : String) (actual : Ty)
  | IncomparableTypes (left : Ty) (right : Ty)
  | Custom (msg : String)
deriving DecidableEq, Repr

/-- `FunctionSignature` from `type_checker.rs`. -/
structure FunctionSignature where
  params : List Ty
  return_type : Ty
deriving DecidableEq, Repr

/-- The `TypeChecker` environment from `type_checker.rs`: its two `BTreeMap`
fields, modelled as association lists. -/
structure TypeChecker where
  state_vars : List (String × Ty)
  functions : List (String × FunctionSignature)

/-- Outcome of `TypeChecker::infer_type`.  The source `match` in
`infer_type` (`type_checker.rs` lines 71–136) has NO arm for
`PhaseQualifiedVar`, `PhaseConstraint` or `CrossPhaseRelation` — it is a
non-exhaustive match over `Expression`, which Rust rejects at compile time.
The marker `noArm` records that the source defines no behaviour there;
`ok`/`err` are the `Ok`/`Err` of the source's `TypeResult<Type>`. -/
inductive TCResult
  | ok (t : Ty)
  | err (e : TypeError)
  | noArm
deriving DecidableEq, Repr

/-- The string the source's inner `match op` produces for a relational
operator inside `check_binary_op`; `Eq`/`Neq` hit the `unreachable!()` arm
there (mapped to `""`, never consulted). -/
def relational_symbol : BinOp → String
  | .Lt => "<"
  | .Gt => ">"
  | .Lte => "<="
  | .Gte => ">="
  | _ => ""

/-- The operator dispatch of `TypeChecker::check_binary_op` once both
operand types are inferred: `Eq`/`Neq` need the exact same type, the
relational operators need matching numeric types. -/
def check_binary_result (left_ty : Ty) (op : BinOp) (right_ty : Ty) : TCResult :=
  match op with
  | .Eq | .Neq =>
    if left_ty ≠ right_ty then .err (.IncomparableTypes left_ty right_ty)
    else .ok .Bool
  | .Lt | .Gt | .Lte | .Gte =>
    if !(is_numeric left_ty) ∨ !(is_numeric right_ty) then
      .err (.IncomparableTypes left_ty right_ty)
    else if left_ty ≠ right_ty then
      .err (.BinaryOpTypeMismatch left_ty (relational_symbol op) right_ty)
    else .ok .Bool

/-- The tail of `TypeChecker::check_logical_op` once both operand types are
inferred: both sides must be `Bool`. -/
def check_logical_result (left_ty : Ty) (op : LogicalOp) (right_ty : Ty) :
    TCResult :=
  let op_name := match op with
    | .And => "&&"
    | .Or => "||"
  if left_ty ≠ .Bool then .err (.LogicalOpRequiresBool op_name left_ty)
  else if right_ty ≠ .Bool then .err (.LogicalOpRequiresBool op_name right_ty)
  else .ok .Bool

mutual

/-- `TypeChecker::infer_type` from `type_checker.rs`, arm by arm.  The
bodies of the helpers `check_binary_op`, `check_logical_op` and
`check_function_call` are inlined into their arms (they are plain
one-caller methods in the source); `?`-propagation of a child's error is
the explicit `err`/`noArm` fall-through. -/
def infer_type (tc : TypeChecker) : Expression → TCResult
  | .Boolean _ => .ok .Bool
  | .IntLit val =>
    if val < 0 then .ok .I64
    else if val ≤ (2 : Int) ^ 64 - 1 then .ok .U64
    else .ok .U128
  | .Var name =>
    match tc.state_vars.lookup name with
    | some t => .ok t
    | none => .err (.UndefinedVariable name)
  | .LayerVar layer var =>
    match tc.state_vars.lookup var with
    | some t => .ok t
    | none => .err (.UndefinedVariable (layer ++ "::" ++ var))
  | .Binary left op right =>
    -- `TypeChecker::check_binary_op`
    match infer_type tc left with
    | .err e => .err e
    | .noArm => .noArm
    | .ok left_ty =>
      match infer_type tc right with
      | .err e => .err e
      | .noArm => .noArm
      | .ok right_ty => check_binary_result left_ty op right_ty
  | .Logical left op right =>
    -- `TypeChecker::check_logical_op`
    match infer_type tc left with
    | .err e => .err e
    | .noArm => .noArm
    | .ok left_ty =>
      match infer_type tc right with
      | .err e => .err e
      | .noArm => .noArm
      | .ok right_ty => check_logical_result left_ty op right_ty
  | .Not e =>
    match infer_type tc e with
    | .err er => .err er
    | .noArm => .noArm
    | .ok t =>
      if t ≠ .Bool then .err (.UnaryOpTypeMismatch "!" t)
      else .ok .Bool
  | .FunctionCall name args =>
    -- `TypeChecker::check_function_call`
    match tc.functions.lookup name with
    | none => .err (.UndefinedFunction name)
    | some sig =>
      if args.length ≠ sig.params.length then
        .err (.Custom ("function '" ++ name ++ "' expects " ++
          toString sig.params.length ++ " arguments but got " ++
          toString args.length))
      else check_args tc name sig.return_type 0 args sig.params
  | .Tuple exprs =>
    match exprs with
    | [] => .ok .Bool
    | e :: _ => infer_type tc e
  | .PhaseQualifiedVar _ _ _ => .noArm
  | .PhaseConstraint _ _ => .noArm
  | .CrossPhaseRelation _ _ _ _ _ => .noArm

/-- The `for (idx, (arg, expected)) in args.iter().zip(&sig.params)` loop of
`check_function_call`: type-check the arguments pointwise; `ret` is the
signature's return type produced when every argument matches (`zip` stops at
the shorter list, hence the two degenerate arms). -/
def check_args (tc : TypeChecker) (fname : String) (ret : Ty) (idx : Nat) :
    List Expression → List Ty → TCResult
  | [], _ => .ok ret
  | _ :: _, [] => .ok ret
  | arg :: args, expected :: params =>
    match infer_type tc arg with
    | .err e => .err e
    | .noArm => .noArm
    | .ok actual =>
      if actual ≠ expected then
        .err (.FunctionArgMismatch fname idx expected actual)
      else check_args tc fname ret (idx + 1) args params

end

/-! ### String primitives used by the Rust code (`str::contains`,
`str::starts_with`, `str::to_lowercase`), modelled on `List Char`. -/

/-- Does the pattern (first argument) match at the head of the text? -/
def chars_match : List Char → List Char → Bool
  | [], _ => true
  | _ :: _, [] => false
  | p :: ps, h :: hs => if p = h then chars_match ps hs else false

/-- Does the pattern occur somewhere in the text (second argument)? -/
def contains_chars (pat : List Char) : List Char → Bool
  | [] => chars_match pat []
  | c :: rest => chars_match pat (c :: rest) || contains_chars pat rest

/-- Rust `str::contains` on the substring pattern `pat`. -/
def rust_contains (hay pat : String) : Bool :=
  contains_chars pat.data hay.data

/-- Rust `str::starts_with` on the pattern `pat`. -/
def rust_starts_with (s pat : String) : Bool :=
  chars_match pat.data s.data

/-- Rust `str::to_lowercase`, character-wise (the identifiers involved are
ASCII, where Rust's mapping and `Char.toLower` agree). -/
def to_lowercase (s : String) : String :=
  String.mk (s.data.map Char.toLower)

/-- Lexicographic `≤` on code points: Rust's `Ord` on `String` (byte-wise
comparison of the UTF-8 encodings, which orders exactly like code
points). -/
def chars_le : List Char → List Char → Bool
  | [], _ => true
  | _ :: _, [] => false
  | a :: as, b :: bs =>
    if a < b then true
    else if b < a then false
    else chars_le as bs

/-- Rust `String` ordering `a <= b`. -/
def string_le (a b : String) : Bool :=
  chars_le a.data b.data

/-! ### `threat_model.rs` -/

/-- The `ThreatModelError` enum from `threat_model.rs`. -/
inductive ThreatModelError
  | ReParseVerificationFailed (msg : String)
  | TamperDetected (msg : String)
  | SandboxEscapeDetected (msg : String)
  | MutationUncertaintyDetected (msg : String)
  | IsolationViolationDetected (msg : String)
  | Custom (msg : String)
deriving DecidableEq, Repr

/-- The `forbidden_prefixes` array of `DSLSandbox::validate_expression`. -/
def forbidden_prefix_list : List String := ["file_", "io_", "extern_", "unsafe_"]

/-- The `allowed_functions` array of the `FunctionCall` arm of
`DSLSandbox::check_expression_recursive`. -/
def allowed_functions : List String :=
  ["sum", "len", "min", "max", "abs", "mod", "div", "add", "sub", "mul",
   "and", "or", "not"]

mutual

/-- `DSLSandbox::check_expression_recursive` from `threat_model.rs`, arm by
arm (the `forbidden_prefixes` parameter is the constant array passed in by
`validate_expression`, folded in here). -/
def check_expression_recursive : Expression → Except ThreatModelError Unit
  | .Var name =>
    if forbidden_prefix_list.any (fun p => rust_starts_with (to_lowercase name) p) then
      .error (.SandboxEscapeDetected ("forbidden variable name: " ++ name))
    else .ok ()
  | .LayerVar layer var =>
    if forbidden_prefix_list.any (fun p =>
        rust_starts_with (to_lowercase layer) p || rust_starts_with (to_lowercase var) p) then
      .error (.SandboxEscapeDetected
        ("forbidden layer/variable name: " ++ layer ++ "::" ++ var))
    else .ok ()
  | .FunctionCall name args =>
    if !(allowed_functions.contains name) then
      .error (.SandboxEscapeDetected ("forbidden function call: " ++ name))
    else check_expressions_recursive args
  | .Binary left _ right => do
    check_expression_recursive left
    check_expression_recursive right
  | .Logical left _ right => do
    check_expression_recursive left
    check_expression_recursive right
  | .Not inner => check_expression_recursive inner
  | .Tuple exprs => check_expressions_recursive exprs
  | .PhaseQualifiedVar phase layer var =>
    if forbidden_prefix_list.any (fun p =>
        rust_starts_with (to_lowercase phase) p ||
        rust_starts_with (to_lowercase layer) p ||
        rust_starts_with (to_lowercase var) p) then
      .error (.SandboxEscapeDetected
        ("forbidden phase/layer/variable name: " ++ phase ++ "::" ++ layer ++
          "::" ++ var))
    else .ok ()
  | .PhaseConstraint _ constraint => check_expression_recursive constraint
  | .CrossPhaseRelation _ expr1 _ expr2 _ => do
    check_expression_recursive expr1
    check_expression_recursive expr2
  | .Boolean _ => .ok ()
  | .IntLit _ => .ok ()

/-- The `for arg in args { ...? }` / `for e in exprs { ...? }` loops of the
`FunctionCall` and `Tuple` arms: first error wins. -/
def check_expressions_recursive : List Expression → Except ThreatModelError Unit
  | [] => .ok ()
  | e :: rest => do
    check_expression_recursive e
    check_expressions_recursive rest

end

/-- `DSLSandbox::validate_expression` from `threat_model.rs`. -/
def validate_expression (expr : Expression) : Except ThreatModelError Unit :=
  check_expression_recursive expr

/-! #### `TamperDetector`.  `compute_hash` feeds the sorted check list into
`std::collections::hash_map::DefaultHasher`, which is SipHash-1-3 with both
keys fixed to 0; `String::hash` writes the string's UTF-8 bytes followed by
a `0xff` byte.  The hasher is reproduced below on `Nat` (all words reduced
mod `2 ^ 64`). -/

/-- 64-bit left rotation (operand below `2 ^ 64`; the two parts are
disjoint in bits, so `+` is the bitwise or). -/
def rotl64 (x n : Nat) : Nat :=
  ((x <<< n) % 2 ^ 64) + (x >>> (64 - n))

/-- One SipHash round. -/
def sip_round : Nat × Nat × Nat × Nat → Nat × Nat × Nat × Nat :=
  fun (v0, v1, v2, v3) =>
    let v0 := (v0 + v1) % 2 ^ 64
    let v1 := rotl64 v1 13
    let v1 := v1 ^^^ v0
    let v0 := rotl64 v0 32
    let v2 := (v2 + v3) % 2 ^ 64
    let v3 := rotl64 v3 16
    let v3 := v3 ^^^ v2
    let v0 := (v0 + v3) % 2 ^ 64
    let v3 := rotl64 v3 21
    let v3 := v3 ^^^ v0
    let v2 := (v2 + v1) % 2 ^ 64
    let v1 := rotl64 v1 17
    let v1 := v1 ^^^ v2
    let v2 := rotl64 v2 32
    (v0, v1, v2, v3)

/-- Compression of one message word (SipHash-1-3: one round per word). -/
def sip_compress (st : Nat × Nat × Nat × Nat) (m : Nat) : Nat × Nat × Nat × Nat :=
  let (v0, v1, v2, v3) := st
  let v3 := v3 ^^^ m
  let (v0, v1, v2, v3) := sip_round (v0, v1, v2, v3)
  let v0 := v0 ^^^ m
  (v0, v1, v2, v3)

/-- A little-endian word from a byte list (first byte is least
significant). -/
def le_word (bytes : List Nat) : Nat :=
  bytes.foldr (fun b acc => b + (acc <<< 8)) 0

/-- Consume whole 8-byte blocks of the stream, returning the state and the
remaining tail (fewer than 8 bytes). -/
def sip_process (st : Nat × Nat × Nat × Nat) :
    List Nat → (Nat × Nat × Nat × Nat) × List Nat
  | b0 :: b1 :: b2 :: b3 :: b4 :: b5 :: b6 :: b7 :: rest =>
    sip_process (sip_compress st (le_word [b0, b1, b2, b3, b4, b5, b6, b7])) rest
  | tail => (st, tail)

/-- SipHash-1-3 of a byte stream under keys `k0`, `k1` (the algorithm behind
`DefaultHasher`; `DefaultHasher::new()` uses `k0 = k1 = 0`). -/
def siphash13 (k0 k1 : Nat) (bytes : List Nat) : Nat :=
  let v0 := k0 ^^^ 0x736f6d6570736575
  let v1 := k1 ^^^ 0x646f72616e646f6d
  let v2 := k0 ^^^ 0x6c7967656e657261
  let v3 := k1 ^^^ 0x7465646279746573
  let (st, tail) := sip_process (v0, v1, v2, v3) bytes
  let b := ((bytes.length % 256) <<< 56) + le_word tail
  let (v0, v1, v2, v3) := sip_compress st b
  let v2 := v2 ^^^ 0xff
  let (v0, v1, v2, v3) := sip_round (sip_round (sip_round (v0, v1, v2, v3)))
  v0 ^^^ v1 ^^^ v2 ^^^ v3

/-- What `check.hash(&mut hasher)` feeds the hasher for one string: its
UTF-8 bytes followed by the `0xff` terminator byte. -/
def hash_string_bytes (s : String) : List Nat :=
  s.toUTF8.toList.map (fun b => b.toNat) ++ [0xff]

/-- Insert into a `≤`-sorted string list, keeping it sorted. -/
def insert_sorted (x : String) : List String → List String
  | [] => [x]
  | y :: ys => if string_le x y then x :: y :: ys else y :: insert_sorted x ys

/-- `Vec::sort` on strings (lexicographic `Ord`); insertion sort produces
the same result, the unique sorted rearrangement. -/
def sort_strings : List String → List String
  | [] => []
  | x :: xs => insert_sorted x (sort_strings xs)

/-- The lower-case hexadecimal digits. -/
def hex_chars : List Char := "0123456789abcdef".data

/-- One hex digit. -/
def hex_digit (n : Nat) : Char := hex_chars.getD n '0'

/-- Rust `format!("\x7b:016x\x7d", n)` for a `u64` value: exactly 16
lower-case hex digits, most significant nibble first, zero padded. -/
def to_hex_16 (n : Nat) : String :=
  String.mk ((List.range 16).map (fun i => hex_digit ((n >>> ((15 - i) * 4)) % 16)))

/-- `TamperDetector::compute_hash` from `threat_model.rs`: sort the checks,
stream each into the `DefaultHasher`, format the final state as 16 hex
digits. -/
def compute_hash (checks : List String) : String :=
  let sorted_checks := sort_strings checks
  to_hex_16 (siphash13 0 0 (sorted_checks.map hash_string_bytes).flatten)

/-- `TamperDetector::verify_tampering` from `threat_model.rs`. -/
def verify_tampering (generated_code : String) (expected_checks : List String) :
    Except ThreatModelError Unit :=
  let expected_hash := compute_hash expected_checks
  let hash_pattern := "INVAR_HASH: " ++ expected_hash
  if rust_contains generated_code hash_pattern then .ok ()
  else .error (.TamperDetected
    "hash mismatch: generated code does not contain expected INVAR_HASH")

/-- `SimulationIsolation::verify_isolation` from `threat_model.rs`.  The
`context_vars` `BTreeMap` is modelled as its key-ordered entry list (the
`for` loop iterates in key order). -/
def verify_isolation (context_vars : List (String × String))
    (allowed_types : List String) : Except ThreatModelError Unit :=
  match context_vars with
  | [] => .ok ()
  | (name, type_str) :: rest =>
    if allowed_types.any (fun allowed => rust_contains type_str allowed) then
      verify_isolation rest allowed_types
    else .error (.IsolationViolationDetected
      ("variable '" ++ name ++ "' has disallowed type '" ++ type_str ++
        "' in simulation context"))

/-! ### `security_validator.rs` -/

/-- The `IssueSeverity` enum from `security_validator.rs`. -/
inductive IssueSeverity
  | Critical
  | High
  | Medium
  | Low
deriving DecidableEq, Repr

/-- A `SecurityIssue` as produced by `check_reentrancy`, reduced to the
fields that are data rather than display text: the 1-based line number the
Rust code formats into `location` (`"{file_path}:{line_num + 1}"`) and the
severity. -/
structure SecurityIssue where
  location : Nat
  severity : IssueSeverity
deriving DecidableEq, Repr

/-- The state-zeroing test of the look-back loop in `check_reentrancy`. -/
def zero_pattern (prev_line : String) : Bool :=
  (rust_contains prev_line "balances[" && rust_contains prev_line "= 0") ||
  (rust_contains prev_line "balance =" && rust_contains prev_line "= 0")

/-- One iteration of the `for (line_num, line) in lines.iter().enumerate()`
loop of `check_reentrancy`: skip guarded lines (`nonReentrant`), skip lines
without an external-call token, look back up to 50 lines
(`lines.iter().take(line_num).skip(line_num.saturating_sub(50))`) for a
state-zeroing line, and otherwise emit the `Critical` issue at the 1-based
line number. -/
def reentrancy_issue_at (lines : List String) (line_num : Nat) :
    Option SecurityIssue :=
  if rust_contains (lines.getD line_num "") "nonReentrant" then none
  else if !(rust_contains (lines.getD line_num "") "transfer(" ||
      rust_contains (lines.getD line_num "") ".call(" ||
      rust_contains (lines.getD line_num "") ".send(") then none
  else if ((lines.take line_num).drop (line_num - 50)).any zero_pattern then none
  else some { location := line_num + 1, severity := .Critical }

/-- `SecurityValidator::check_reentrancy` from `security_validator.rs`,
over the `code.lines()` list. -/
def check_reentrancy (lines : List String) : List SecurityIssue :=
  (List.range lines.length).filterMap (reentrancy_issue_at lines)

mutual

/-- The spec side of the sandbox claim: "every expression it accepts
contains only allowed identifiers and allowed function names (at every
nesting depth)" — a structural predicate written from the spec's words,
to be compared with `validate_expression`. -/
def sandbox_ok : Expression → Bool
  | .Var name =>
    !(forbidden_prefix_list.any (fun p => rust_starts_with (to_lowercase name) p))
  | .LayerVar layer var =>
    !(forbidden_prefix_list.any (fun p =>
      rust_starts_with (to_lowercase layer) p ||
      rust_starts_with (to_lowercase var) p))
  | .PhaseQualifiedVar phase layer var =>
    !(forbidden_prefix_list.any (fun p =>
      rust_starts_with (to_lowercase phase) p ||
      rust_starts_with (to_lowercase layer) p ||
      rust_starts_with (to_lowercase var) p))
  | .FunctionCall name args =>
    allowed_functions.contains name && sandbox_ok_list args
  | .Binary l _ r => sandbox_ok l && sandbox_ok r
  | .Logical l _ r => sandbox_ok l && sandbox_ok r
  | .Not e => sandbox_ok e
  | .Tuple exprs => sandbox_ok_list exprs
  | .PhaseConstraint _ c => sandbox_ok c
  | .CrossPhaseRelation _ e1 _ e2 _ => sandbox_ok e1 && sandbox_ok e2
  | .Boolean _ => true
  | .IntLit _ => true

/-- All members of a list are sandbox-clean. -/
def sandbox_ok_list : List Expression → Bool
  | [] => true
  | e :: rest => sandbox_ok e && sandbox_ok_list rest

end

/-! ## Claims -/

/-- C1, counterexample.  The claim says `==`/`!=` on values of differing
variants return `TypeError`; on the code, `U64(0) == I64(0)` evaluates to
`Bool(false)` and `U64(0) != I64(0)` to `Bool(true)` — no error. -/
theorem C1_counterexample :
    eval_binary_op (.U64 0) .Eq (.I64 0) = .ok (.Bool false) ∧
    eval_binary_op (.U64 0) .Neq (.I64 0) = .ok (.Bool true) := by
  constructor <;> rfl

/-- C1, amended.  `eval_binary_op` never returns `TypeError` for `==`/`!=`:
the `Eq`/`Neq` arms apply the derived structural equality, so values of
differing variants compare as `Bool(false)` under `==` (dually `Bool(true)`
under `!=`), and values of identical variants compare by the standard
equality of their payloads. -/
theorem C1_amended :
    (∀ l r : Value, get_type l ≠ get_type r →
      eval_binary_op l .Eq r = .ok (.Bool false) ∧
      eval_binary_op l .Neq r = .ok (.Bool true)) ∧
    (∀ a b : Bool, eval_binary_op (.Bool a) .Eq (.Bool b) =
        .ok (.Bool (decide (a = b))) ∧
      eval_binary_op (.Bool a) .Neq (.Bool b) = .ok (.Bool (decide (a ≠ b)))) ∧
    (∀ a b : Nat, eval_binary_op (.U64 a) .Eq (.U64 b) =
        .ok (.Bool (decide (a = b))) ∧
      eval_binary_op (.U64 a) .Neq (.U64 b) = .ok (.Bool (decide (a ≠ b)))) ∧
    (∀ a b : Nat, eval_binary_op (.U128 a) .Eq (.U128 b) =
        .ok (.Bool (decide (a = b))) ∧
      eval_binary_op (.U128 a) .Neq (.U128 b) = .ok (.Bool (decide (a ≠ b)))) ∧
    (∀ a b : Int, eval_binary_op (.I64 a) .Eq (.I64 b) =
        .ok (.Bool (decide (a = b))) ∧
      eval_binary_op (.I64 a) .Neq (.I64 b) = .ok (.Bool (decide (a ≠ b)))) ∧
    (∀ a b : String, eval_binary_op (.Address a) .Eq (.Address b) =
        .ok (.Bool (decide (a = b))) ∧
      eval_binary_op (.Address a) .Neq (.Address b) =
        .ok (.Bool (decide (a ≠ b)))) := by
  refine ⟨fun l r h => ?_, ?_, ?_, ?_, ?_, ?_⟩ <;>
    try (intro a b; constructor <;> simp [eval_binary_op])
  have hne : l ≠ r := fun he => h (he ▸ rfl)
  constructor
  · show Except.ok (Value.Bool (decide (l = r))) = _
    rw [decide_eq_false hne]
  · show Except.ok (Value.Bool (decide (l ≠ r))) = _
    rw [decide_eq_true hne]

/-- C1, witness for the amended claim at a concrete differing-variant
pair. -/
theorem C1_witness :
    eval_binary_op (.U64 5) .Eq (.Bool true) = .ok (.Bool false) ∧
    eval_binary_op (.U64 5) .Neq (.Bool true) = .ok (.Bool true) :=
  C1_amended.1 (.U64 5) (.Bool true) (by decide)

/-- C3 (code bug).  The `Int` arm's negative branch performs the truncating
cast `*val as i64`: at the literal `-9223372036854775809` (`i64::MIN - 1`,
well inside `i128`) evaluation yields the wrapped value
`I64(9223372036854775807)` instead of a value numerically equal to the
literal, contradicting the claim (and the module's own "checked arithmetic,
no wrap" documentation). -/
theorem C3_wrapped_literal :
    evaluate ⟨[], []⟩ (.IntLit (-9223372036854775809)) =
      .ok (.I64 9223372036854775807) ∧
    evaluate ⟨[], []⟩ (.IntLit (-9223372036854775809)) ≠
      .ok (.I64 (-9223372036854775809)) := by
  constructor
  · simp [evaluate, i128_as_i64]
  · simp [evaluate, i128_as_i64]

/-- C4.  `&&` with a false left operand short-circuits to `Bool(false)` for
EVERY right operand (an unbound variable there raises no error), `||` with
a true left operand short-circuits to `Bool(true)`; but
`true && undef_var` with `undef_var` unbound returns
`UndefinedVariable(undef_var)`. -/
theorem C4_short_circuit (ctx : ExecutionContext) (e : Expression) (n : String)
    (h : ctx.state_vars.lookup n = none) :
    evaluate ctx (.Logical (.Boolean false) .And e) = .ok (.Bool false) ∧
    evaluate ctx (.Logical (.Boolean true) .Or e) = .ok (.Bool true) ∧
    evaluate ctx (.Logical (.Boolean true) .And (.Var n)) =
      .error (.UndefinedVariable n) := by
  refine ⟨?_, ?_, ?_⟩ <;> simp [evaluate, to_bool, bind, Except.bind, h]

/-- C4, witness: the short-circuit results at an empty context with an
undefined right-hand variable. -/
theorem C4_witness :
    evaluate ⟨[], []⟩ (.Logical (.Boolean false) .And (.Var "undefined")) =
      .ok (.Bool false) ∧
    evaluate ⟨[], []⟩ (.Logical (.Boolean true) .Or (.Var "undefined")) =
      .ok (.Bool true) ∧
    evaluate ⟨[], []⟩ (.Logical (.Boolean true) .And (.Var "undef_var")) =
      .error (.UndefinedVariable "undef_var") :=
  C4_short_circuit ⟨[], []⟩ (.Var "undefined") "undef_var" rfl

/-- C7 (code bug).  The `match` of `TypeChecker::infer_type` has no arm for
`PhaseQualifiedVar`, `PhaseConstraint` or `CrossPhaseRelation` (a
non-exhaustive match over `Expression`, which `rustc` rejects), so the
checker defines no behaviour for the three phase-qualified IR forms the
claim describes; the embedding records the missing arms as `noArm`. -/
theorem C7_phase_forms_unhandled (tc : TypeChecker) (P L n ph : String)
    (c e1 e2 : Expression) (op : BinOp) :
    infer_type tc (.PhaseQualifiedVar P L n) = .noArm ∧
    infer_type tc (.PhaseConstraint ph c) = .noArm ∧
    infer_type tc (.CrossPhaseRelation P e1 ph e2 op) = .noArm := by
  refine ⟨?_, ?_, ?_⟩ <;> simp [infer_type]

/-- C8.  `LayerVar{L,n}` resolves the key `"L::n"`, then `"n"`, and fails
with `UndefinedVariable("L::n")`; `PhaseQualifiedVar{P,L,n}` resolves
`"P::L::n"`, then `"L::n"`, then `"n"`, failing with
`UndefinedVariable("P::L::n")`. -/
theorem C8_layer_phase_lookup (ctx : ExecutionContext) (P L n : String) :
    (∀ v, ctx.state_vars.lookup (L ++ "::" ++ n) = some v →
      evaluate ctx (.LayerVar L n) = .ok v) ∧
    (ctx.state_vars.lookup (L ++ "::" ++ n) = none →
      ∀ v, ctx.state_vars.lookup n = some v →
        evaluate ctx (.LayerVar L n) = .ok v) ∧
    (ctx.state_vars.lookup (L ++ "::" ++ n) = none →
      ctx.state_vars.lookup n = none →
        evaluate ctx (.LayerVar L n) =
          .error (.UndefinedVariable (L ++ "::" ++ n))) ∧
    (∀ v, ctx.state_vars.lookup (P ++ "::" ++ L ++ "::" ++ n) = some v →
      evaluate ctx (.PhaseQualifiedVar P L n) = .ok v) ∧
    (ctx.state_vars.lookup (P ++ "::" ++ L ++ "::" ++ n) = none →
      ∀ v, ctx.state_vars.lookup (L ++ "::" ++ n) = some v →
        evaluate ctx (.PhaseQualifiedVar P L n) = .ok v) ∧
    (ctx.state_vars.lookup (P ++ "::" ++ L ++ "::" ++ n) = none →
      ctx.state_vars.lookup (L ++ "::" ++ n) = none →
      ∀ v, ctx.state_vars.lookup n = some v →
        evaluate ctx (.PhaseQualifiedVar P L n) = .ok v) ∧
    (ctx.state_vars.lookup (P ++ "::" ++ L ++ "::" ++ n) = none →
      ctx.state_vars.lookup (L ++ "::" ++ n) = none →
      ctx.state_vars.lookup n = none →
        evaluate ctx (.PhaseQualifiedVar P L n) =
          .error (.UndefinedVariable (P ++ "::" ++ L ++ "::" ++ n))) := by
  refine ⟨fun v h1 => ?_, fun h1 v h2 => ?_, fun h1 h2 => ?_,
    fun v h1 => ?_, fun h1 v h2 => ?_, fun h1 h2 v h3 => ?_,
    fun h1 h2 h3 => ?_⟩ <;>
  simp [evaluate, h1] <;> simp [h2] <;> simp [h3]

/-- C8, witness: the spec's layer-resolution scenario (a context binding
only `"account::balance"`). -/
theorem C8_witness :
    evaluate ⟨[("account::balance", .U64 50)], []⟩
      (.LayerVar "account" "balance") = .ok (.U64 50) ∧
    evaluate ⟨[("account::balance", .U64 50)], []⟩
      (.LayerVar "bundler" "balance") =
        .error (.UndefinedVariable ("bundler" ++ "::" ++ "balance")) := by
  constructor
  · exact (C8_layer_phase_lookup ⟨[("account::balance", .U64 50)], []⟩
      "p" "account" "balance").1 (.U64 50) (by decide)
  · exact (C8_layer_phase_lookup ⟨[("account::balance", .U64 50)], []⟩
      "p" "bundler" "balance").2.2.1 (by decide) (by decide)

/-- C10.  `verify_isolation` succeeds exactly when every context variable's
type string contains at least one allowed substring; with an empty
allow-list it rejects any non-empty map, naming the first variable in
iteration (key) order, and accepts the empty map. -/
theorem C10_verify_isolation (vars : List (String × String))
    (allowed : List String) :
    (verify_isolation vars allowed = .ok () ↔
      ∀ p ∈ vars, ∃ a ∈ allowed, rust_contains p.2 a = true) ∧
    (∀ n t rest, allowed = [] → vars = (n, t) :: rest →
      verify_isolation vars allowed = .error (.IsolationViolationDetected
        ("variable '" ++ n ++ "' has disallowed type '" ++ t ++
          "' in simulation context"))) := by
  constructor
  · induction vars with
    | nil => simp [verify_isolation]
    | cons hd tl ih =>
      obtain ⟨n, t⟩ := hd
      simp only [verify_isolation]
      cases hcb : allowed.any (fun a => rust_contains t a) with
      | false =>
        rw [if_neg (by simp)]
        constructor
        · intro h
          simp at h
        · intro hall
          exfalso
          obtain ⟨a, ha, hca⟩ := hall (n, t) (List.mem_cons_self _ _)
          have h2 : allowed.any (fun x => rust_contains t x) = true :=
            List.any_eq_true.mpr ⟨a, ha, hca⟩
          rw [hcb] at h2
          exact Bool.false_ne_true h2
      | true =>
        rw [if_pos rfl]
        constructor
        · intro h p hp
          rcases List.mem_cons.mp hp with he | hm
          · subst he
            exact List.any_eq_true.mp hcb
          · exact (ih.mp h) p hm
        · intro hall
          exact ih.mpr (fun p hp => hall p (List.mem_cons_of_mem _ hp))
  · intro n t rest ha hv
    subst ha
    subst hv
    simp [verify_isolation]

/-- C10, witness: empty allow-list rejects a one-entry map naming its first
(and only) variable, and accepts the empty map. -/
theorem C10_witness :
    verify_isolation [("x", "File")] [] = .error (.IsolationViolationDetected
      ("variable '" ++ "x" ++ "' has disallowed type '" ++ "File" ++
        "' in simulation context")) :=
  (C10_verify_isolation [("x", "File")] []).2 "x" "File" [] rfl rfl

/-- Every hex digit of an index below 16 is a lower-case hex character. -/
lemma hex_digit_mem (m : Nat) (h : m < 16) : hex_digit m ∈ hex_chars := by
  interval_cases m <;> decide

/-- C5.  `compute_hash` factors through sorting (lists equal after sorting
hash identically); its output is always a 16-character lower-case hex
string; and `verify_tampering` succeeds exactly when the text contains
`"INVAR_HASH: "` followed by the hash of the checks. -/
theorem C5_tamper_hash :
    (∀ L1 L2 : List String, sort_strings L1 = sort_strings L2 →
      compute_hash L1 = compute_hash L2) ∧
    (∀ L : List String, (compute_hash L).length = 16 ∧
      ∀ c ∈ (compute_hash L).data, c ∈ hex_chars) ∧
    (∀ text checks, verify_tampering text checks = .ok () ↔
      rust_contains text ("INVAR_HASH: " ++ compute_hash checks) = true) := by
  refine ⟨fun L1 L2 h => ?_, fun L => ⟨?_, ?_⟩, fun text checks => ?_⟩
  · simp only [compute_hash, h]
  · simp [compute_hash, to_hex_16, String.length]
  · intro c hc
    simp only [compute_hash, to_hex_16, String.data, List.mem_map,
      List.mem_range] at hc
    obtain ⟨i, _, rfl⟩ := hc
    exact hex_digit_mem _ (Nat.mod_lt _ (by norm_num))
  · simp only [verify_tampering]
    by_cases hc : rust_contains text ("INVAR_HASH: " ++ compute_hash checks) = true
    · simp [hc]
    · simp [hc]

/-- C5, witness: the spec's order-invariance instance. -/
theorem C5_witness : compute_hash ["b", "a"] = compute_hash ["a", "b"] :=
  C5_tamper_hash.1 ["b", "a"] ["a", "b"] (by decide)

/-- Pointwise sandbox soundness lifts to the argument/tuple list walk. -/
lemma check_list_spec (es : List Expression)
    (H : ∀ a ∈ es,
      (check_expression_recursive a = .ok () ↔ sandbox_ok a = true) ∧
      (∀ err, check_expression_recursive a = .error err →
        ∃ msg, err = .SandboxEscapeDetected msg)) :
    (check_expressions_recursive es = .ok () ↔ sandbox_ok_list es = true) ∧
    (∀ err, check_expressions_recursive es = .error err →
      ∃ msg, err = .SandboxEscapeDetected msg) := by
  induction es with
  | nil =>
    constructor
    · simp [check_expressions_recursive, sandbox_ok_list]
    · intro err herr
      simp [check_expressions_recursive] at herr
  | cons a rest ih =>
    have Ha := H a (List.mem_cons_self _ _)
    have Hrest := ih (fun b hb => H b (List.mem_cons_of_mem _ hb))
    rcases hA : check_expression_recursive a with errA | valA
    · have hstep : check_expressions_recursive (a :: rest) = .error errA := by
        simp [check_expressions_recursive, hA, bind, Except.bind]
      have hsa : sandbox_ok a = false := by
        cases hsa2 : sandbox_ok a
        · rfl
        · have hok := Ha.1.mpr hsa2
          rw [hA] at hok
          exact absurd hok (by simp)
      constructor
      · rw [hstep]
        simp [sandbox_ok_list, hsa]
      · intro err herr
        rw [hstep] at herr
        simp only [Except.error.injEq] at herr
        subst herr
        exact Ha.2 errA hA
    · cases valA
      have hsa : sandbox_ok a = true := Ha.1.mp hA
      have hstep : check_expressions_recursive (a :: rest) =
          check_expressions_recursive rest := by
        simp [check_expressions_recursive, hA, bind, Except.bind]
      constructor
      · rw [hstep]
        simp only [sandbox_ok_list, hsa, Bool.true_and]
        exact Hrest.1
      · intro err herr
        rw [hstep] at herr
        exact Hrest.2 err herr

/-- Sandbox soundness for a single expression: the walk accepts exactly the
`sandbox_ok` expressions, and every rejection is a
`SandboxEscapeDetected`. -/
lemma check_expr_spec (e : Expression) :
    (check_expression_recursive e = .ok () ↔ sandbox_ok e = true) ∧
    (∀ err, check_expression_recursive e = .error err →
      ∃ msg, err = .SandboxEscapeDetected msg) := by
  suffices H : ∀ N : Nat, ∀ e : Expression, sizeOf e = N →
      (check_expression_recursive e = .ok () ↔ sandbox_ok e = true) ∧
      (∀ err, check_expression_recursive e = .error err →
        ∃ msg, err = .SandboxEscapeDetected msg) from H _ e rfl
  intro N
  induction N using Nat.strong_induction_on with
  | _ N ih =>
    intro e hse
    have IH : ∀ sub : Expression, sizeOf sub < sizeOf e →
        (check_expression_recursive sub = .ok () ↔ sandbox_ok sub = true) ∧
        (∀ err, check_expression_recursive sub = .error err →
          ∃ msg, err = .SandboxEscapeDetected msg) := by
      intro sub h
      exact ih _ (hse ▸ h) sub rfl
    clear ih hse
    cases e with
    | Boolean b =>
      refine ⟨by simp [check_expression_recursive, sandbox_ok], ?_⟩
      intro err herr
      simp [check_expression_recursive] at herr
    | IntLit v =>
      refine ⟨by simp [check_expression_recursive, sandbox_ok], ?_⟩
      intro err herr
      simp [check_expression_recursive] at herr
    | Var name =>
      cases hb : forbidden_prefix_list.any
          (fun p => rust_starts_with (to_lowercase name) p) with
      | false =>
        refine ⟨by simp [check_expression_recursive, sandbox_ok, hb], ?_⟩
        intro err herr
        simp [check_expression_recursive, hb] at herr
      | true =>
        refine ⟨by simp [check_expression_recursive, sandbox_ok, hb], ?_⟩
        intro err herr
        simp only [check_expression_recursive, hb, if_pos,
          Except.error.injEq] at herr
        exact ⟨_, herr.symm⟩
    | LayerVar layer var =>
      cases hb : forbidden_prefix_list.any (fun p =>
          rust_starts_with (to_lowercase layer) p ||
          rust_starts_with (to_lowercase var) p) with
      | false =>
        refine ⟨by simp [check_expression_recursive, sandbox_ok, hb], ?_⟩
        intro err herr
        simp [check_expression_recursive, hb] at herr
      | true =>
        refine ⟨by simp [check_expression_recursive, sandbox_ok, hb], ?_⟩
        intro err herr
        simp only [check_expression_recursive, hb, if_pos,
          Except.error.injEq] at herr
        exact ⟨_, herr.symm⟩
    | PhaseQualifiedVar phase layer var =>
      cases hb : forbidden_prefix_list.any (fun p =>
          rust_starts_with (to_lowercase phase) p ||
          rust_starts_with (to_lowercase layer) p ||
          rust_starts_with (to_lowercase var) p) with
      | false =>
        refine ⟨by simp [check_expression_recursive, sandbox_ok, hb], ?_⟩
        intro err herr
        simp [check_expression_recursive, hb] at herr
      | true =>
        refine ⟨by simp [check_expression_recursive, sandbox_ok, hb], ?_⟩
        intro err herr
        simp only [check_expression_recursive, hb, if_pos,
          Except.error.injEq] at herr
        exact ⟨_, herr.symm⟩
    | PhaseConstraint phase c =>
      have Hc := IH c (by simp; try omega)
      constructor
      · simpa [check_expression_recursive, sandbox_ok] using Hc.1
      · intro err herr
        simp only [check_expression_recursive] at herr
        exact Hc.2 err herr
    | Not inner =>
      have Hc := IH inner (by simp; try omega)
      constructor
      · simpa [check_expression_recursive, sandbox_ok] using Hc.1
      · intro err herr
        simp only [check_expression_recursive] at herr
        exact Hc.2 err herr
    | Binary l op r =>
      have Hl := IH l (by simp; try omega)
      have Hr := IH r (by simp; try omega)
      rcases hL : check_expression_recursive l with errL | valL
      · have hsl : sandbox_ok l = false := by
          cases hsl2 : sandbox_ok l
          · rfl
          · have hok := Hl.1.mpr hsl2
            rw [hL] at hok
            exact absurd hok (by simp)
        have hstep : check_expression_recursive (.Binary l op r) = .error errL := by
          simp [check_expression_recursive, hL, bind, Except.bind]
        constructor
        · rw [hstep]
          simp [sandbox_ok, hsl]
        · intro err herr
          rw [hstep] at herr
          simp only [Except.error.injEq] at herr
          subst herr
          exact Hl.2 errL hL
      · cases valL
        have hsl : sandbox_ok l = true := Hl.1.mp hL
        have hstep : check_expression_recursive (.Binary l op r) =
            check_expression_recursive r := by
          simp [check_expression_recursive, hL, bind, Except.bind]
        constructor
        · rw [hstep]
          simp only [sandbox_ok, hsl, Bool.true_and]
          exact Hr.1
        · intro err herr
          rw [hstep] at herr
          exact Hr.2 err herr
    | Logical l op r =>
      have Hl := IH l (by simp; try omega)
      have Hr := IH r (by simp; try omega)
      rcases hL : check_expression_recursive l with errL | valL
      · have hsl : sandbox_ok l = false := by
          cases hsl2 : sandbox_ok l
          · rfl
          · have hok := Hl.1.mpr hsl2
            rw [hL] at hok
            exact absurd hok (by simp)
        have hstep : check_expression_recursive (.Logical l op r) = .error errL := by
          simp [check_expression_recursive, hL, bind, Except.bind]
        constructor
        · rw [hstep]
          simp [sandbox_ok, hsl]
        · intro err herr
          rw [hstep] at herr
          simp only [Except.error.injEq] at herr
          subst herr
          exact Hl.2 errL hL
      · cases valL
        have hsl : sandbox_ok l = true := Hl.1.mp hL
        have hstep : check_expression_recursive (.Logical l op r) =
            check_expression_recursive r := by
          simp [check_expression_recursive, hL, bind, Except.bind]
        constructor
        · rw [hstep]
          simp only [sandbox_ok, hsl, Bool.true_and]
          exact Hr.1
        · intro err herr
          rw [hstep] at herr
          exact Hr.2 err herr
    | CrossPhaseRelation p1 e1 p2 e2 op =>
      have Hl := IH e1 (by simp; try omega)
      have Hr := IH e2 (by simp; try omega)
      rcases hL : check_expression_recursive e1 with errL | valL
      · have hsl : sandbox_ok e1 = false := by
          cases hsl2 : sandbox_ok e1
          · rfl
          · have hok := Hl.1.mpr hsl2
            rw [hL] at hok
            exact absurd hok (by simp)
        have hstep : check_expression_recursive
            (.CrossPhaseRelation p1 e1 p2 e2 op) = .error errL := by
          simp [check_expression_recursive, hL, bind, Except.bind]
        constructor
        · rw [hstep]
          simp [sandbox_ok, hsl]
        · intro err herr
          rw [hstep] at herr
          simp only [Except.error.injEq] at herr
          subst herr
          exact Hl.2 errL hL
      · cases valL
        have hsl : sandbox_ok e1 = true := Hl.1.mp hL
        have hstep : check_expression_recursive
            (.CrossPhaseRelation p1 e1 p2 e2 op) =
            check_expression_recursive e2 := by
          simp [check_expression_recursive, hL, bind, Except.bind]
        constructor
        · rw [hstep]
          simp only [sandbox_ok, hsl, Bool.true_and]
          exact Hr.1
        · intro err herr
          rw [hstep] at herr
          exact Hr.2 err herr
    | FunctionCall name args =>
      have Hargs : ∀ a ∈ args,
          (check_expression_recursive a = .ok () ↔ sandbox_ok a = true) ∧
          (∀ err, check_expression_recursive a = .error err →
            ∃ msg, err = .SandboxEscapeDetected msg) := by
        intro a ha
        refine IH a (lt_trans (List.sizeOf_lt_of_mem ha) ?_)
        simp
        try omega
      have Hlist := check_list_spec args Hargs
      cases hc : allowed_functions.contains name with
      | false =>
        have hstep : check_expression_recursive (.FunctionCall name args) =
            .error (.SandboxEscapeDetected ("forbidden function call: " ++ name)) := by
          simp only [check_expression_recursive, hc]
          simp
        constructor
        · rw [hstep]
          simp only [sandbox_ok, hc, Bool.false_and]
          simp
        · intro err herr
          rw [hstep] at herr
          simp only [Except.error.injEq] at herr
          exact ⟨_, herr.symm⟩
      | true =>
        have hstep : check_expression_recursive (.FunctionCall name args) =
            check_expressions_recursive args := by
          simp only [check_expression_recursive, hc]
          simp
        constructor
        · rw [hstep]
          simp only [sandbox_ok, hc, Bool.true_and]
          exact Hlist.1
        · intro err herr
          rw [hstep] at herr
          exact Hlist.2 err herr
    | Tuple exprs =>
      have Hargs : ∀ a ∈ exprs,
          (check_expression_recursive a = .ok () ↔ sandbox_ok a = true) ∧
          (∀ err, check_expression_recursive a = .error err →
            ∃ msg, err = .SandboxEscapeDetected msg) := by
        intro a ha
        refine IH a (lt_trans (List.sizeOf_lt_of_mem ha) ?_)
        simp
        try omega
      have Hlist := check_list_spec exprs Hargs
      constructor
      · simpa [check_expression_recursive, sandbox_ok] using Hlist.1
      · intro err herr
        simp only [check_expression_recursive] at herr
        exact Hlist.2 err herr

/-- C6.  `validate_expression` accepts exactly the expressions whose every
`Var`/`LayerVar`/`PhaseQualifiedVar` component avoids the forbidden
lowercased prefixes and whose every `FunctionCall` name is on the
allow-list, at every nesting depth; every rejection is a
`SandboxEscapeDetected`. -/
theorem C6_sandbox (e : Expression) :
    (validate_expression e = .ok () ↔ sandbox_ok e = true) ∧
    (sandbox_ok e = false →
      ∃ msg, validate_expression e = .error (.SandboxEscapeDetected msg)) := by
  have h := check_expr_spec e
  constructor
  · exact h.1
  · intro hfalse
    rcases hres : check_expression_recursive e with err | val
    · obtain ⟨msg, hmsg⟩ := h.2 err hres
      refine ⟨msg, ?_⟩
      rw [validate_expression, hres, hmsg]
    · cases val
      have hok : sandbox_ok e = true := h.1.mp hres
      rw [hfalse] at hok
      exact absurd hok (by simp)

/-- C6, witness: the spec's sandbox scenarios — a forbidden variable is
rejected with `SandboxEscapeDetected`, an allow-listed call over a clean
variable is accepted. -/
theorem C6_witness :
    (∃ msg, validate_expression (.Var "file_handle") =
      .error (.SandboxEscapeDetected msg)) ∧
    validate_expression (.FunctionCall "sum" [.Var "balances"]) = .ok () := by
  constructor
  · exact (C6_sandbox (.Var "file_handle")).2 (by simp only [sandbox_ok]; decide)
  · refine (C6_sandbox (.FunctionCall "sum" [.Var "balances"])).1.mpr ?_
    simp only [sandbox_ok, sandbox_ok_list]
    decide

/-- Every issue the per-line reentrancy step emits carries the 1-based
number of that very line (and `Critical` severity). -/
lemma reentrancy_issue_location (lines : List String) (j : Nat)
    (iss : SecurityIssue) (h : reentrancy_issue_at lines j = some iss) :
    iss = ⟨j + 1, .Critical⟩ := by
  simp only [reentrancy_issue_at] at h
  split_ifs at h with h1 h2 h3
  all_goals simp_all

/-- C9.  For a source line that carries an external-call token and no
`nonReentrant` guard, a `Critical` issue is emitted at that line exactly
when no line among the up-to-50 preceding lines matches a state-zeroing
pattern. -/
theorem C9_reentrancy (lines : List String) (i : Nat) (hi : i < lines.length)
    (hguard : rust_contains (lines.getD i "") "nonReentrant" = false)
    (hcall : (rust_contains (lines.getD i "") "transfer(" ||
      rust_contains (lines.getD i "") ".call(" ||
      rust_contains (lines.getD i "") ".send(") = true) :
    (⟨i + 1, .Critical⟩ : SecurityIssue) ∈ check_reentrancy lines ↔
      ((lines.take i).drop (i - 50)).any zero_pattern = false := by
  constructor
  · intro hmem
    rw [check_reentrancy, List.mem_filterMap] at hmem
    obtain ⟨j, hj, hfj⟩ := hmem
    have hloc := reentrancy_issue_location lines j _ hfj
    simp only [SecurityIssue.mk.injEq] at hloc
    have hji : j = i := by omega
    subst hji
    simp only [reentrancy_issue_at, hguard, hcall] at hfj
    by_contra hw
    rw [Bool.not_eq_false] at hw
    simp [hw] at hfj
  · intro hwin
    rw [check_reentrancy, List.mem_filterMap]
    refine ⟨i, List.mem_range.mpr hi, ?_⟩
    simp only [reentrancy_issue_at, hguard, hcall, hwin]
    simp

/-- C9, witness: the spec's scenario — zeroing before the `transfer(` call
suppresses the report; with the two lines reversed, a `Critical` issue is
emitted at the line of the call. -/
theorem C9_witness :
    (⟨2, .Critical⟩ : SecurityIssue) ∉
      check_reentrancy ["balances[x] = 0;", "msg.sender.transfer(amt);"] ∧
    (⟨1, .Critical⟩ : SecurityIssue) ∈
      check_reentrancy ["msg.sender.transfer(amt);", "balances[x] = 0;"] := by
  constructor
  · intro hmem
    have h := (C9_reentrancy ["balances[x] = 0;", "msg.sender.transfer(amt);"] 1
      (by decide) (by decide) (by decide)).mp hmem
    exact absurd h (by decide)
  · exact (C9_reentrancy ["msg.sender.transfer(amt);", "balances[x] = 0;"] 0
      (by decide) (by decide) (by decide)).mpr (by decide)

/-! ### Type-safety infrastructure (claim C2) -/

/-- The execution context supplies values whose variant matches the type
the checker records for the corresponding variable: whenever the checker
environment types `name` as `T`, any binding of the key `name` itself, or
of any `::`-qualified key ending in `name` (the keys the evaluator may
resolve a `LayerVar`/`Var` of that name to), holds a value of variant
`T`. -/
def env_agrees (ctx : ExecutionContext) (tc : TypeChecker) : Prop :=
  ∀ name T, tc.state_vars.lookup name = some T →
    (∀ v, ctx.state_vars.lookup name = some v → get_type v = T) ∧
    (∀ pre v, ctx.state_vars.lookup (pre ++ "::" ++ name) = some v →
      get_type v = T)

/-- Registered function callbacks return values of the registered return
type (for every argument list). -/
def funcs_agree (ctx : ExecutionContext) (tc : TypeChecker) : Prop :=
  ∀ name sig f, tc.functions.lookup name = some sig →
    ctx.functions.lookup name = some f →
    ∀ args, ∃ v, f args = .ok v ∧ get_type v = sig.return_type

/-- Inversion of the `Var` arm of `infer_type`. -/
lemma var_infer_inv {tc : TypeChecker} {name : String} {T : Ty}
    (ht : infer_type tc (.Var name) = .ok T) :
    tc.state_vars.lookup name = some T := by
  simp only [infer_type] at ht
  split at ht
  · rename_i t hlk
    simp only [TCResult.ok.injEq] at ht
    exact ht ▸ hlk
  · exact TCResult.noConfusion ht

/-- Inversion of the `LayerVar` arm of `infer_type` (the checker looks up
the bare variable name only). -/
lemma layervar_infer_inv {tc : TypeChecker} {layer var : String} {T : Ty}
    (ht : infer_type tc (.LayerVar layer var) = .ok T) :
    tc.state_vars.lookup var = some T := by
  simp only [infer_type] at ht
  split at ht
  · rename_i t hlk
    simp only [TCResult.ok.injEq] at ht
    exact ht ▸ hlk
  · exact TCResult.noConfusion ht

/-- Inversion of the `Binary` arm of `infer_type`. -/
lemma binary_infer_inv {tc : TypeChecker} {l r : Expression} {op : BinOp}
    {T : Ty} (ht : infer_type tc (.Binary l op r) = .ok T) :
    ∃ tL tR, infer_type tc l = .ok tL ∧ infer_type tc r = .ok tR ∧
      check_binary_result tL op tR = .ok T := by
  simp only [infer_type] at ht
  split at ht
  · exact TCResult.noConfusion ht
  · exact TCResult.noConfusion ht
  · rename_i tL hL
    split at ht
    · exact TCResult.noConfusion ht
    · exact TCResult.noConfusion ht
    · rename_i tR hR
      exact ⟨tL, tR, hL, hR, ht⟩

/-- Inversion of the `Logical` arm of `infer_type`. -/
lemma logical_infer_inv {tc : TypeChecker} {l r : Expression} {op : LogicalOp}
    {T : Ty} (ht : infer_type tc (.Logical l op r) = .ok T) :
    ∃ tL tR, infer_type tc l = .ok tL ∧ infer_type tc r = .ok tR ∧
      check_logical_result tL op tR = .ok T := by
  simp only [infer_type] at ht
  split at ht
  · exact TCResult.noConfusion ht
  · exact TCResult.noConfusion ht
  · rename_i tL hL
    split at ht
    · exact TCResult.noConfusion ht
    · exact TCResult.noConfusion ht
    · rename_i tR hR
      exact ⟨tL, tR, hL, hR, ht⟩

/-- Inversion of the `Not` arm of `infer_type`. -/
lemma not_infer_inv {tc : TypeChecker} {e : Expression} {T : Ty}
    (ht : infer_type tc (.Not e) = .ok T) :
    infer_type tc e = .ok .Bool ∧ T = .Bool := by
  simp only [infer_type] at ht
  split at ht
  · exact TCResult.noConfusion ht
  · exact TCResult.noConfusion ht
  · rename_i t hinner
    split_ifs at ht with hbool
    have hb : t = Ty.Bool := not_not.mp hbool
    subst hb
    simp only [TCResult.ok.injEq] at ht
    exact ⟨hinner, ht.symm⟩

/-- Inversion of the `FunctionCall` arm of `infer_type`. -/
lemma funcall_infer_inv {tc : TypeChecker} {name : String}
    {args : List Expression} {T : Ty}
    (ht : infer_type tc (.FunctionCall name args) = .ok T) :
    ∃ sig, tc.functions.lookup name = some sig ∧
      args.length = sig.params.length ∧
      check_args tc name sig.return_type 0 args sig.params = .ok T := by
  simp only [infer_type] at ht
  split at ht
  · exact TCResult.noConfusion ht
  · rename_i sig hsig
    split_ifs at ht with hlen
    exact ⟨sig, hsig, not_not.mp hlen, ht⟩

/-- `check_args` only ever succeeds with the supplied return type. -/
lemma check_args_ret {tc : TypeChecker} {fname : String} {ret T : Ty} :
    ∀ (args : List Expression) (params : List Ty) (idx : Nat),
      check_args tc fname ret idx args params = .ok T → T = ret := by
  intro args
  induction args with
  | nil =>
    intro params idx h
    simp only [check_args, TCResult.ok.injEq] at h
    exact h.symm
  | cons a as ih =>
    intro params idx h
    cases params with
    | nil =>
      simp only [check_args, TCResult.ok.injEq] at h
      exact h.symm
    | cons p ps =>
      simp only [check_args] at h
      split at h
      · exact TCResult.noConfusion h
      · exact TCResult.noConfusion h
      · rename_i actual hact
        split_ifs at h with hne
        exact ih ps (idx + 1) h

/-- A successful `check_args` run type-checked every argument (the lengths
being equal, `zip` visits them all). -/
lemma check_args_member {tc : TypeChecker} {fname : String} {ret T : Ty} :
    ∀ (args : List Expression) (params : List Ty) (idx : Nat),
      args.length = params.length →
      check_args tc fname ret idx args params = .ok T →
      ∀ a ∈ args, ∃ p, infer_type tc a = .ok p := by
  intro args
  induction args with
  | nil =>
    intro params idx _ _ a ha
    exact absurd ha (by simp)
  | cons a as ih =>
    intro params idx hlen h b hb
    cases params with
    | nil => simp at hlen
    | cons p ps =>
      simp only [check_args] at h
      split at h
      · exact TCResult.noConfusion h
      · exact TCResult.noConfusion h
      · rename_i actual hact
        split_ifs at h with hne
        rcases List.mem_cons.mp hb with rfl | hmem
        · exact ⟨actual, hact⟩
        · exact ih ps (idx + 1) (by simpa using hlen) h b hmem

/-- If the argument evaluation loop fails, some argument fails with that
very error. -/
lemma evaluate_args_error {ctx : ExecutionContext} :
    ∀ {args : List Expression} {err : EvaluationError},
      evaluate_args ctx args = .error err →
      ∃ a ∈ args, evaluate ctx a = .error err := by
  intro args
  induction args with
  | nil =>
    intro err h
    simp [evaluate_args] at h
  | cons a rest ih =>
    intro err h
    rcases hA : evaluate ctx a with eA | vA
    · have hs : evaluate_args ctx (a :: rest) = .error eA := by
        simp [evaluate_args, hA, bind, Except.bind]
      rw [hs] at h
      simp only [Except.error.injEq] at h
      subst h
      exact ⟨a, List.mem_cons_self _ _, hA⟩
    · rcases hR : evaluate_args ctx rest with eR | vR
      · have hs : evaluate_args ctx (a :: rest) = .error eR := by
          simp [evaluate_args, hA, hR, bind, Except.bind]
        rw [hs] at h
        simp only [Except.error.injEq] at h
        subst h
        obtain ⟨b, hb, hbe⟩ := ih hR
        exact ⟨b, List.mem_cons_of_mem _ hb, hbe⟩
      · have hs : evaluate_args ctx (a :: rest) = .ok (vA :: vR) := by
          simp [evaluate_args, hA, hR, bind, Except.bind]
        rw [hs] at h
        exact Except.noConfusion h

/-- What a successful `check_binary_result` guarantees. -/
lemma check_binary_result_ok : ∀ (tL tR T : Ty) (op : BinOp),
    check_binary_result tL op tR = .ok T →
    T = .Bool ∧ (op = .Eq ∨ op = .Neq ∨
      (is_numeric tL = true ∧ tL = tR)) := by decide

/-- A successful `check_logical_result` always reports `Bool`. -/
lemma check_logical_result_ok : ∀ (tL tR T : Ty) (op : LogicalOp),
    check_logical_result tL op tR = .ok T → T = .Bool := by decide

/-- Under the side conditions a successful binary type check guarantees,
`eval_binary_op` on variant-correct values always returns a boolean. -/
lemma eval_binop_total (vL vR : Value) (op : BinOp) (t : Ty)
    (hside : op = .Eq ∨ op = .Neq ∨
      (is_numeric t = true ∧ get_type vL = t ∧ get_type vR = t)) :
    ∃ b : Bool, eval_binary_op vL op vR = .ok (.Bool b) := by
  rcases hside with rfl | rfl | ⟨hnum, hL, hR⟩
  · exact ⟨_, rfl⟩
  · exact ⟨_, rfl⟩
  · cases t <;> simp [is_numeric] at hnum <;>
      cases vL <;> simp [get_type] at hL <;>
      cases vR <;> simp [get_type] at hR <;>
      cases op <;> exact ⟨_, rfl⟩

/-- `to_bool` never fails. -/
lemma to_bool_total (v : Value) : ∃ b : Bool, to_bool v = .ok b := by
  cases v <;> exact ⟨_, rfl⟩

/-- Soundness of the checker against the evaluator: under agreeing
environments, a type-checked expression never evaluates to `TypeError`,
and when it evaluates to a value, that value's variant is the inferred
type. -/
lemma eval_sound (tc : TypeChecker) (ctx : ExecutionContext)
    (henv : env_agrees ctx tc) (hfun : funcs_agree ctx tc) :
    ∀ (e : Expression) (T : Ty), infer_type tc e = .ok T →
      (∀ err, evaluate ctx e = .error err → err ≠ .TypeError) ∧
      (∀ v, evaluate ctx e = .ok v → get_type v = T) := by
  suffices H : ∀ (N : Nat) (e : Expression), sizeOf e = N → ∀ T : Ty,
      infer_type tc e = .ok T →
      (∀ err, evaluate ctx e = .error err → err ≠ .TypeError) ∧
      (∀ v, evaluate ctx e = .ok v → get_type v = T) from
    fun e T ht => H (sizeOf e) e rfl T ht
  intro N
  induction N using Nat.strong_induction_on with
  | _ N ih =>
  intro e hse T ht
  have IH : ∀ sub : Expression, sizeOf sub < sizeOf e → ∀ T2 : Ty,
      infer_type tc sub = .ok T2 →
      (∀ err, evaluate ctx sub = .error err → err ≠ .TypeError) ∧
      (∀ v, evaluate ctx sub = .ok v → get_type v = T2) := by
    intro sub hlt T2 h2
    exact ih (sizeOf sub) (hse ▸ hlt) sub rfl T2 h2
  clear ih hse
  cases e with
  | Boolean b =>
    simp only [infer_type, TCResult.ok.injEq] at ht
    subst ht
    constructor
    · intro err herr
      simp [evaluate] at herr
    · intro v hv
      simp only [evaluate, Except.ok.injEq] at hv
      subst hv
      rfl
  | IntLit val =>
    constructor
    · intro err herr
      simp only [evaluate] at herr
      split_ifs at herr
    · intro v hv
      simp only [infer_type] at ht
      simp only [evaluate] at hv
      split_ifs at ht hv with h1 h2 <;>
        (simp only [TCResult.ok.injEq] at ht; subst ht;
         simp only [Except.ok.injEq] at hv; subst hv; rfl)
  | Var name =>
    have hlk := var_infer_inv ht
    constructor
    · intro err herr
      simp only [evaluate] at herr
      rcases hck : ctx.state_vars.lookup name with _ | v
      · simp only [hck, Except.error.injEq] at herr
        subst herr
        simp
      · simp only [hck] at herr
        exact Except.noConfusion herr
    · intro v hv
      simp only [evaluate] at hv
      rcases hck : ctx.state_vars.lookup name with _ | v2
      · simp only [hck] at hv
        exact Except.noConfusion hv
      · simp only [hck, Except.ok.injEq] at hv
        subst hv
        exact (henv name T hlk).1 v2 hck
  | LayerVar layer var =>
    have hlk := layervar_infer_inv ht
    constructor
    · intro err herr
      simp only [evaluate] at herr
      rcases hq : ctx.state_vars.lookup (layer ++ "::" ++ var) with _ | v1
      · simp only [hq] at herr
        rcases hp : ctx.state_vars.lookup var with _ | v2
        · simp only [hp, Except.error.injEq] at herr
          subst herr
          simp
        · simp only [hp] at herr
          exact Except.noConfusion herr
      · simp only [hq] at herr
        exact Except.noConfusion herr
    · intro v hv
      simp only [evaluate] at hv
      rcases hq : ctx.state_vars.lookup (layer ++ "::" ++ var) with _ | v1
      · simp only [hq] at hv
        rcases hp : ctx.state_vars.lookup var with _ | v2
        · simp only [hp] at hv
          exact Except.noConfusion hv
        · simp only [hp, Except.ok.injEq] at hv
          subst hv
          exact (henv var T hlk).1 v2 hp
      · simp only [hq, Except.ok.injEq] at hv
        subst hv
        exact (henv var T hlk).2 layer v1 hq
  | PhaseQualifiedVar p l v =>
    simp only [infer_type] at ht
    exact TCResult.noConfusion ht
  | PhaseConstraint p c =>
    simp only [infer_type] at ht
    exact TCResult.noConfusion ht
  | CrossPhaseRelation p1 e1 p2 e2 op =>
    simp only [infer_type] at ht
    exact TCResult.noConfusion ht
  | Binary l op r =>
    obtain ⟨tL, tR, hL, hR, hcb⟩ := binary_infer_inv ht
    obtain ⟨hTB, hside⟩ := check_binary_result_ok tL tR T op hcb
    subst hTB
    have HL := IH l (by simp; try omega) tL hL
    have HR := IH r (by simp; try omega) tR hR
    rcases hEL : evaluate ctx l with errL | vL
    · have hstep : evaluate ctx (.Binary l op r) = .error errL := by
        simp [evaluate, hEL, bind, Except.bind]
      rw [hstep]
      constructor
      · intro err herr
        simp only [Except.error.injEq] at herr
        subst herr
        exact HL.1 errL hEL
      · intro v hv
        exact Except.noConfusion hv
    · rcases hER : evaluate ctx r with errR | vR
      · have hstep : evaluate ctx (.Binary l op r) = .error errR := by
          simp [evaluate, hEL, hER, bind, Except.bind]
        rw [hstep]
        constructor
        · intro err herr
          simp only [Except.error.injEq] at herr
          subst herr
          exact HR.1 errR hER
        · intro v hv
          exact Except.noConfusion hv
      · have hstep : evaluate ctx (.Binary l op r) = eval_binary_op vL op vR := by
          simp [evaluate, hEL, hER, bind, Except.bind]
        have hsideValues : op = .Eq ∨ op = .Neq ∨
            (is_numeric tL = true ∧ get_type vL = tL ∧ get_type vR = tL) := by
          rcases hside with h | h | ⟨hnum, heq⟩
          · exact Or.inl h
          · exact Or.inr (Or.inl h)
          · subst heq
            exact Or.inr (Or.inr ⟨hnum, HL.2 vL hEL, HR.2 vR hER⟩)
        obtain ⟨b, hb⟩ := eval_binop_total vL vR op tL hsideValues
        rw [hstep, hb]
        constructor
        · intro err herr
          exact Except.noConfusion herr
        · intro v hv
          simp only [Except.ok.injEq] at hv
          subst hv
          rfl
  | Logical l op r =>
    obtain ⟨tL, tR, hL, hR, hcl⟩ := logical_infer_inv ht
    have hTB := check_logical_result_ok tL tR T op hcl
    subst hTB
    have HL := IH l (by simp; try omega) tL hL
    have HR := IH r (by simp; try omega) tR hR
    rcases hEL : evaluate ctx l with errL | vL
    · have hstep : evaluate ctx (.Logical l op r) = .error errL := by
        simp [evaluate, hEL, bind, Except.bind]
      rw [hstep]
      constructor
      · intro err herr
        simp only [Except.error.injEq] at herr
        subst herr
        exact HL.1 errL hEL
      · intro v hv
        exact Except.noConfusion hv
    · obtain ⟨bL, hbL⟩ := to_bool_total vL
      cases op with
      | And =>
        cases bL with
        | false =>
          have hstep : evaluate ctx (.Logical l .And r) = .ok (.Bool false) := by
            simp [evaluate, hEL, hbL, bind, Except.bind]
          rw [hstep]
          constructor
          · intro err herr
            exact Except.noConfusion herr
          · intro v hv
            simp only [Except.ok.injEq] at hv
            subst hv
            rfl
        | true =>
          rcases hER : evaluate ctx r with errR | vR
          · have hstep : evaluate ctx (.Logical l .And r) = .error errR := by
              simp [evaluate, hEL, hbL, hER, bind, Except.bind]
            rw [hstep]
            constructor
            · intro err herr
              simp only [Except.error.injEq] at herr
              subst herr
              exact HR.1 errR hER
            · intro v hv
              exact Except.noConfusion hv
          · obtain ⟨bR, hbR⟩ := to_bool_total vR
            have hstep : evaluate ctx (.Logical l .And r) = .ok (.Bool bR) := by
              simp [evaluate, hEL, hbL, hER, hbR, bind, Except.bind]
            rw [hstep]
            constructor
            · intro err herr
              exact Except.noConfusion herr
            · intro v hv
              simp only [Except.ok.injEq] at hv
              subst hv
              rfl
      | Or =>
        cases bL with
        | true =>
          have hstep : evaluate ctx (.Logical l .Or r) = .ok (.Bool true) := by
            simp [evaluate, hEL, hbL, bind, Except.bind]
          rw [hstep]
          constructor
          · intro err herr
            exact Except.noConfusion herr
          · intro v hv
            simp only [Except.ok.injEq] at hv
            subst hv
            rfl
        | false =>
          rcases hER : evaluate ctx r with errR | vR
          · have hstep : evaluate ctx (.Logical l .Or r) = .error errR := by
              simp [evaluate, hEL, hbL, hER, bind, Except.bind]
            rw [hstep]
            constructor
            · intro err herr
              simp only [Except.error.injEq] at herr
              subst herr
              exact HR.1 errR hER
            · intro v hv
              exact Except.noConfusion hv
          · obtain ⟨bR, hbR⟩ := to_bool_total vR
            have hstep : evaluate ctx (.Logical l .Or r) = .ok (.Bool bR) := by
              simp [evaluate, hEL, hbL, hER, hbR, bind, Except.bind]
            rw [hstep]
            constructor
            · intro err herr
              exact Except.noConfusion herr
            · intro v hv
              simp only [Except.ok.injEq] at hv
              subst hv
              rfl
  | Not inner =>
    obtain ⟨hinner, hTB⟩ := not_infer_inv ht
    subst hTB
    have HI := IH inner (by simp; try omega) .Bool hinner
    rcases hEI : evaluate ctx inner with errI | vI
    · have hstep : evaluate ctx (.Not inner) = .error errI := by
        simp [evaluate, hEI, bind, Except.bind]
      rw [hstep]
      constructor
      · intro err herr
        simp only [Except.error.injEq] at herr
        subst herr
        exact HI.1 errI hEI
      · intro v hv
        exact Except.noConfusion hv
    · obtain ⟨b, hb⟩ := to_bool_total vI
      have hstep : evaluate ctx (.Not inner) = .ok (.Bool (!b)) := by
        simp [evaluate, hEI, hb, bind, Except.bind]
      rw [hstep]
      constructor
      · intro err herr
        exact Except.noConfusion herr
      · intro v hv
        simp only [Except.ok.injEq] at hv
        subst hv
        rfl
  | FunctionCall name args =>
    obtain ⟨sig, hsig, hlen, hca⟩ := funcall_infer_inv ht
    have hret : T = sig.return_type := check_args_ret args sig.params 0 hca
    rcases hflk : ctx.functions.lookup name with _ | f
    · have hstep : evaluate ctx (.FunctionCall name args) =
          .error (.UndefinedFunction name) := by
        simp [evaluate, hflk]
      rw [hstep]
      constructor
      · intro err herr
        simp only [Except.error.injEq] at herr
        subst herr
        simp
      · intro v hv
        exact Except.noConfusion hv
    · rcases hargs : evaluate_args ctx args with errA | vals
      · have hstep : evaluate ctx (.FunctionCall name args) = .error errA := by
          simp [evaluate, hflk, hargs, bind, Except.bind]
        rw [hstep]
        constructor
        · intro err herr
          simp only [Except.error.injEq] at herr
          subst herr
          obtain ⟨a, ha, hae⟩ := evaluate_args_error hargs
          obtain ⟨p, hp⟩ := check_args_member args sig.params 0 hlen hca a ha
          have hsz : sizeOf a < sizeOf (Expression.FunctionCall name args) := by
            refine lt_trans (List.sizeOf_lt_of_mem ha) ?_
            simp
            try omega
          exact (IH a hsz p hp).1 errA hae
        · intro v hv
          exact Except.noConfusion hv
      · obtain ⟨v0, hfv, htv⟩ := hfun name sig f hsig hflk vals
        have hstep : evaluate ctx (.FunctionCall name args) = f vals := by
          simp [evaluate, hflk, hargs, bind, Except.bind]
        rw [hstep, hfv]
        constructor
        · intro err herr
          exact Except.noConfusion herr
        · intro v hv
          simp only [Except.ok.injEq] at hv
          subst hv
          rw [hret]
          exact htv
  | Tuple exprs =>
    cases exprs with
    | nil =>
      simp only [infer_type, TCResult.ok.injEq] at ht
      subst ht
      have hstep : evaluate ctx (.Tuple []) = .ok (.Bool true) := by
        simp [evaluate]
      rw [hstep]
      constructor
      · intro err herr
        exact Except.noConfusion herr
      · intro v hv
        simp only [Except.ok.injEq] at hv
        subst hv
        rfl
    | cons e0 rest =>
      have hinf : infer_type tc e0 = .ok T := by
        simpa [infer_type] using ht
      have H0 := IH e0 (by simp; try omega) T hinf
      have hstep : evaluate ctx (.Tuple (e0 :: rest)) = evaluate ctx e0 := by
        simp [evaluate]
      rw [hstep]
      exact H0

/-- C2.  Type safety: whenever the checker infers type `T` for an
expression, and the context binds state variables only to values of the
variant the checker records for them (`env_agrees`) and registered
callbacks return values of their registered return type (`funcs_agree`),
evaluation never produces the `TypeError` variant — and any produced value
has variant `T`. -/
theorem C2_type_safety (tc : TypeChecker) (ctx : ExecutionContext)
    (e : Expression) (T : Ty)
    (henv : env_agrees ctx tc) (hfun : funcs_agree ctx tc)
    (ht : infer_type tc e = .ok T) :
    (∀ err, evaluate ctx e = .error err → err ≠ .TypeError) ∧
    (∀ v, evaluate ctx e = .ok v → get_type v = T) :=
  eval_sound tc ctx henv hfun e T ht

/-- C2, witness: the safety statement instantiated at a checked comparison
in the empty environments. -/
theorem C2_witness :
    (∀ err, evaluate ⟨[], []⟩ (.Binary (.IntLit 10) .Lt (.IntLit 20)) =
      .error err → err ≠ .TypeError) ∧
    (∀ v, evaluate ⟨[], []⟩ (.Binary (.IntLit 10) .Lt (.IntLit 20)) =
      .ok v → get_type v = .Bool) :=
  C2_type_safety ⟨[], []⟩ ⟨[], []⟩ (.Binary (.IntLit 10) .Lt (.IntLit 20)) .Bool
    (by intro name T h; simp [List.lookup] at h)
    (by intro name sig f h1 h2 args; simp [List.lookup] at h1)
    (by simp [infer_type, check_binary_result, is_numeric])

end Invar
